import Mathlib

/-!
Shallow embedding of vpype's data model (`src/vpype/model.py`): line
collections, layered vector data, the SVG page-size resolver, the layer-id
assignment rule of multilayer import, the reloop reseaming operation and the
endpoint-merging engine.  Coordinates are modelled as rationals; a Python
complex array becomes a list of points.  Distance comparisons
`hypot(d) <= tol` are encoded without square roots as
`0 <= tol ∧ dist2 <= tol * tol`.
-/

namespace Vpype

/-- A point of the plane, modelling one complex entry of a numpy line array. -/
abbrev Point : Type := ℚ × ℚ

/-- A polyline: ordered sequence of points (Python: 1D complex numpy array). -/
abbrev Line : Type := List Point

/-- Default point used by total head/last accessors (Python would raise on an
empty array; no claim depends on empty-line behaviour of these accessors). -/
def zp : Point := (0, 0)

/-- First point of a line (`line[0]`). -/
def lineStart (l : Line) : Point := l.headD zp

/-- Last point of a line (`line[-1]`). -/
def lineEnd (l : Line) : Point := l.getLastD zp

/-- Squared Euclidean distance between two points. -/
def dist2 (p q : Point) : ℚ :=
  (p.1 - q.1) * (p.1 - q.1) + (p.2 - q.2) * (p.2 - q.2)

/-- `hypot(p - q) <= tol`, encoded without square roots: the Euclidean
distance is within `tol` iff `tol` is nonnegative and the squared distance is
at most `tol * tol`. -/
def withinTol (p q : Point) (tol : ℚ) : Bool :=
  decide (0 ≤ tol) && decide (dist2 p q ≤ tol * tol)

/-- Minimum of a nonempty list of coordinates given as head and tail
(models `ndarray.min()` on a nonempty array). -/
def coordMin (x : ℚ) (xs : List ℚ) : ℚ := xs.foldl min x

/-- Maximum of a nonempty list of coordinates (models `ndarray.max()`). -/
def coordMax (x : ℚ) (xs : List ℚ) : ℚ := xs.foldl max x

/-- `line.real.min()`: minimum x coordinate of a line (0 for the degenerate
empty line, on which numpy would raise). -/
def lineMinX (l : Line) : ℚ :=
  match l.map Prod.fst with
  | [] => 0
  | x :: xs => coordMin x xs

/-- `line.real.max()`. -/
def lineMaxX (l : Line) : ℚ :=
  match l.map Prod.fst with
  | [] => 0
  | x :: xs => coordMax x xs

/-- `line.imag.min()`. -/
def lineMinY (l : Line) : ℚ :=
  match l.map Prod.snd with
  | [] => 0
  | x :: xs => coordMin x xs

/-- `line.imag.max()`. -/
def lineMaxY (l : Line) : ℚ :=
  match l.map Prod.snd with
  | [] => 0
  | x :: xs => coordMax x xs

/-- `LineCollection`: ordered container of polylines (class `LineCollection`,
`model.py`). -/
structure LineCollection where
  lines : List Line
  deriving DecidableEq

/-- `LineCollection.extend` restricted to line-collection arguments: appends
the other collection's lines in order. -/
def LineCollection.extend (a b : LineCollection) : LineCollection :=
  ⟨a.lines ++ b.lines⟩

/-- `LineCollection.is_empty`. -/
def LineCollection.is_empty (lc : LineCollection) : Bool :=
  lc.lines.length = 0

/-- `LineCollection.bounds`: `None` when the collection holds no line, else
`(min x, min y, max x, max y)` over the per-line minima/maxima. -/
def LineCollection.bounds (lc : LineCollection) : Option (ℚ × ℚ × ℚ × ℚ) :=
  match lc.lines with
  | [] => none
  | l :: rest =>
    some
      (coordMin (lineMinX l) (rest.map lineMinX),
        coordMin (lineMinY l) (rest.map lineMinY),
        coordMax (lineMaxX l) (rest.map lineMaxX),
        coordMax (lineMaxY l) (rest.map lineMaxY))

/-- `LineCollection.width`: 0.0 for an empty collection, else max x − min x. -/
def LineCollection.width (lc : LineCollection) : ℚ :=
  match lc.lines with
  | [] => 0
  | l :: rest =>
    coordMax (lineMaxX l) (rest.map lineMaxX) - coordMin (lineMinX l) (rest.map lineMinX)

/-- `LineCollection.height`: 0.0 for an empty collection, else max y − min y. -/
def LineCollection.height (lc : LineCollection) : ℚ :=
  match lc.lines with
  | [] => 0
  | l :: rest =>
    coordMax (lineMaxY l) (rest.map lineMaxY) - coordMin (lineMinY l) (rest.map lineMinY)

/-- `0.5 * (line[0] + line[-1])`: the averaged replacement end point used by
`_reloop_line`. -/
def end_point (line : Line) : Point :=
  (((line.headD zp).1 + (line.getLastD zp).1) / 2,
    ((line.headD zp).2 + (line.getLastD zp).2) / 2)

/-- `_reloop_line(line, loc)`: overwrite both endpoints with their average,
then rotate the seam to position `loc`:
`np.hstack([line[loc:], line[1 : min(loc + 1, len(line))]])`, where the
slice `line[1 : m]` is `(drop 1).take (m - 1)`. -/
def reloop_line (line : Line) (loc : ℕ) : Line :=
  let ep := end_point line
  let line2 := (line.set 0 ep).set (line.length - 1) ep
  line2.drop loc ++ (line2.drop 1).take (min (loc + 1) line.length - 1)

/-- The closedness test of `LineCollection.reloop`: the distance between the
last and the first point is at most the tolerance. -/
def is_closed (line : Line) (tol : ℚ) : Bool :=
  withinTol (lineEnd line) (lineStart line) tol

/-- `LineCollection.reloop(tolerance)`: every line whose endpoints are within
the tolerance is reseamed in place.  The seam locations drawn by
`np.random.randint(len(line) - 1)` are modelled by the explicit choice
function `locs`, giving the drawn index for each line position; a faithful
draw satisfies `locs i < len - 1`. -/
def LineCollection.reloop (lc : LineCollection) (tol : ℚ) (locs : ℕ → ℕ) : LineCollection :=
  ⟨lc.lines.enum.map fun il =>
    if is_closed il.2 tol then reloop_line il.2 (locs il.1) else il.2⟩

/-- `VectorData`: mapping from integer layer id to a line collection
(class `VectorData`, `model.py`).  The Python `dict` is modelled as an
association list in insertion order; `dict` keys are unique and this
uniqueness is preserved by every operation below. -/
structure VectorData where
  layers : List (ℤ × LineCollection)
  deriving DecidableEq

/-- Key lookup in the insertion-ordered layer dictionary
(`self._layers[layer_id]` / `layer_id in self._layers`). -/
def VectorData.getLayer (vd : VectorData) (layer_id : ℤ) : Option LineCollection :=
  (vd.layers.find? (fun kv => kv.1 = layer_id)).map Prod.snd

/-- `dict` assignment `d[k] = v`: replace the value in place when the key is
present (keeping its position), else append the new pair at the end. -/
def dictSet (l : List (ℤ × LineCollection)) (k : ℤ) (v : LineCollection) :
    List (ℤ × LineCollection) :=
  match l with
  | [] => [(k, v)]
  | kv :: rest => if kv.1 = k then (k, v) :: rest else kv :: dictSet rest k v

/-- `VectorData.__setitem__`: rejects a layer id `< 1` (Python raises
`ValueError`, modelled as `Except.error`), else stores the collection. -/
def VectorData.setitem (vd : VectorData) (layer_id : ℤ) (value : LineCollection) :
    Except String VectorData :=
  if layer_id < 1 then
    Except.error "expected non-null, positive layer id"
  else
    Except.ok ⟨dictSet vd.layers layer_id value⟩

/-- The `vid = 1; while vid in self._layers: vid += 1` loop of
`VectorData.free_id` (the identical loop appears inline in `VectorData.add`),
written with explicit fuel; `layers.length + 1` rounds of fuel always
suffice, see the free-id theorems. -/
def freeFrom (keys : List ℤ) : ℕ → ℤ → ℤ
  | 0, v => v
  | fuel + 1, v => if v ∈ keys then freeFrom keys fuel (v + 1) else v

/-- `VectorData.free_id`: the lowest free layer id, starting the search at 1. -/
def VectorData.free_id (vd : VectorData) : ℤ :=
  freeFrom (vd.layers.map Prod.fst) (vd.layers.length + 1) 1

/-- `VectorData.add`: when `layer_id` is omitted the lowest free id is used;
an existing layer is extended in place, a missing one is created.  Note the
Python code performs no validation of an explicitly provided `layer_id`. -/
def VectorData.add (vd : VectorData) (lc : LineCollection)
    (layer_id : Option ℤ := none) : VectorData :=
  let lid := layer_id.getD vd.free_id
  match vd.getLayer lid with
  | some old => ⟨dictSet vd.layers lid (old.extend lc)⟩
  | none => ⟨vd.layers ++ [(lid, lc)]⟩

/-- The qualifying layers of `VectorData.bounds`: among the requested ids
(default: all keys, in insertion order), those that exist and hold at least
one line. -/
def VectorData.qualifying (vd : VectorData) (layer_ids : Option (List ℤ)) :
    List LineCollection :=
  (layer_ids.getD (vd.layers.map Prod.fst)).filterMap fun vid =>
    match vd.getLayer vid with
    | some lc => if 0 < lc.lines.length then some lc else none
    | none => none

/-- Componentwise union of two bounding boxes (the per-column `min`/`max` of
`VectorData.bounds`). -/
def union4 (a b : ℚ × ℚ × ℚ × ℚ) : ℚ × ℚ × ℚ × ℚ :=
  (min a.1 b.1, min a.2.1 b.2.1, max a.2.2.1 b.2.2.1, max a.2.2.2 b.2.2.2)

/-- The per-column `min`/`max` reduction of `VectorData.bounds` over the
collected per-layer bounds; on an empty collection the Python code indexes
an empty array and fails, modelled as `none`. -/
def foldBounds : List (ℚ × ℚ × ℚ × ℚ) → Option (ℚ × ℚ × ℚ × ℚ)
  | [] => none
  | b :: rest => some (rest.foldl union4 b)

/-- `VectorData.bounds`: per-layer bounds of the qualifying layers combined
componentwise. -/
def VectorData.bounds (vd : VectorData) (layer_ids : Option (List ℤ) := none) :
    Option (ℚ × ℚ × ℚ × ℚ) :=
  foldBounds ((vd.qualifying layer_ids).filterMap LineCollection.bounds)

/-- The root attributes of an SVG document that `_calculate_page_size` reads.
The `width`/`height` attributes are modelled after the unit-conversion
collaborator has been applied.  Modelled from the spec: `convert`
(`vpype/utils.py`, not part of the sources) maps a length-with-unit string to
a canonical numeric unit and passes plain numbers through, so a canonical
width attribute `"50"` appears here as the rational `50`, and an absent
attribute as `none`. -/
structure SvgRoot where
  viewBox : Option (ℚ × ℚ × ℚ × ℚ)
  widthAttr : Option ℚ
  heightAttr : Option ℚ

/-- `_calculate_page_size`: with a view box `(min-x, min-y, width, height)`,
resolved width/height come from the explicit attributes, falling back to the
view-box extent; scale is resolved size over view-box size per axis and
offset is the negated view-box origin.  Without a view box, scale 1 and
offset 0 with unresolved size. -/
def calculate_page_size (root : SvgRoot) :
    Option ℚ × Option ℚ × ℚ × ℚ × ℚ × ℚ :=
  match root.viewBox with
  | some vb =>
    let width := root.widthAttr.getD vb.2.2.1
    let height := root.heightAttr.getD vb.2.2.2
    (some width, some height, width / vb.2.2.1, height / vb.2.2.2, -vb.1, -vb.2.1)
  | none => (none, none, 1, 1, 0, 0)

/-- The per-point transform of `_convert_flattened_paths`
(`path += offset_x + 1j * offset_y; path.real *= scale_x;
path.imag *= scale_y`). -/
def transformPoint (scale_x scale_y offset_x offset_y : ℚ) (p : Point) : Point :=
  ((p.1 + offset_x) * scale_x, (p.2 + offset_y) * scale_y)

/-- The transform applied to every point of an imported line. -/
def transformLine (scale_x scale_y offset_x offset_y : ℚ) (l : Line) : Line :=
  l.map (transformPoint scale_x scale_y offset_x offset_y)

/-- All characters that are not digits stripped from a string
(`re.sub("[^0-9]", "", s)`). -/
def stripNonDigits (s : String) : String :=
  ⟨s.data.filter Char.isDigit⟩

/-- `int(s)` on a nonempty string of decimal digits. -/
def digitsToNat (s : String) : ℕ :=
  s.data.foldl (fun a c => a * 10 + (c.toNat - 48)) 0

/-- The layer-id computation of `read_multilayer_svg` for the `i`-th (0-based)
top-level group with the given inkscape label and id attributes. -/
def layer_id_for (label idAttr : Option String) (i : ℕ) : ℕ :=
  let lid_str := stripNonDigits (label.getD "")
  let lid_str := if lid_str = "" then stripNonDigits (idAttr.getD "") else lid_str
  if lid_str ≠ "" then
    let lid := digitsToNat lid_str
    if lid = 0 then 1 else lid
  else
    i + 1

/-- The layer-id derivation rule in the words of the specification: digits
stripped from the label, parsed if any remain; else digits stripped from the
id attribute, parsed if any remain; else the 1-based position; a parsed id of
0 is remapped to 1. -/
def layerIdSpec (label idAttr : Option String) (i : ℕ) : ℕ :=
  let fromLabel := stripNonDigits (label.getD "")
  let fromId := stripNonDigits (idAttr.getD "")
  let parsed : Option ℕ :=
    if fromLabel ≠ "" then some (digitsToNat fromLabel)
    else if fromId ≠ "" then some (digitsToNat fromId)
    else none
  match parsed with
  | some n => if n = 0 then 1 else n
  | none => i + 1

/-- Modelled from the spec: the registered endpoints of the Spatial Endpoint
Index (class `LineIndex`, `vpype/line_index.py`, which is not part of the
sources).  Per §4.5/§4.6 each remaining line is registered so that the
endpoint that can become the leading point of an appended line is queryable:
its leading endpoint, and also its trailing endpoint when reversal is
permitted (`reverse=True`).  Entries carry the line's position in the index
and the flag telling whether the line must be reversed so the matched
endpoint becomes its leading point. -/
def candidates (reverse : Bool) (index : List Line) : List (ℕ × Bool × Point) :=
  index.enum.flatMap fun il =>
    (il.1, false, lineStart il.2) :: (if reverse then [(il.1, true, lineEnd il.2)] else [])

/-- Choose the candidate at minimal distance from `p`, earlier candidates
winning ties (Modelled from the spec: §4.5 leaves the tie-break to the
implementer as long as it is deterministic; the claims proved below never
depend on it because their within-tolerance candidate is unique). -/
def selectNearest (p : Point) (best : ℕ × Bool × Point) :
    List (ℕ × Bool × Point) → ℕ × Bool × Point
  | [] => best
  | c :: rest => selectNearest p (if dist2 p c.2.2 < dist2 p best.2.2 then c else best) rest

/-- Modelled from the spec: `LineIndex.find_nearest_within(p, tolerance)` —
the nearest remaining registered endpoint within the tolerance, reported as
(index of its owning line, must-reverse flag), or no match. -/
def findNearestWithin (reverse : Bool) (index : List Line) (p : Point) (tol : ℚ) :
    Option (ℕ × Bool) :=
  match (candidates reverse index).filter (fun c => withinTol p c.2.2 tol) with
  | [] => none
  | c :: rest =>
    let best := selectNearest p c rest
    some (best.1, best.2.1)

/-- One query round of the inner merge loop (`LineCollection.merge`,
`model.py:377-380`): query at the chain's tail; on failure with `flip`
enabled, query at the chain's head and reverse the chain — note that the
code reverses the accumulated chain even when the second query also fails. -/
def queryStep (flip : Bool) (tol : ℚ) (index : List Line) (line : Line) :
    Option (ℕ × Bool) × Line :=
  match findNearestWithin flip index (lineEnd line) tol with
  | some r => (some r, line)
  | none =>
    if flip then (findNearestWithin flip index (lineStart line) tol, line.reverse)
    else (none, line)

/-- The inner `while True` loop of `LineCollection.merge`: repeatedly extend
the chain by the found line (reversed when flagged), removing it from the
index, until no further match; written with explicit fuel, one unit per
round.  `index.length + 1` units always suffice (termination theorem). -/
def extendChain (flip : Bool) (tol : ℚ) : ℕ → List Line → Line → Option (Line × List Line)
  | 0, _, _ => none
  | fuel + 1, index, line =>
    match queryStep flip tol index line with
    | (none, line2) => some (line2, index)
    | (some ir, line2) =>
      let nl := index.getD ir.1 []
      extendChain flip tol fuel (index.eraseIdx ir.1)
        (line2 ++ if ir.2 then nl.reverse else nl)

/-- The outer `while len(index) > 0` loop of `LineCollection.merge`: pop the
front line as seed, run the inner loop, emit the finished chain; fueled, one
unit per seed. -/
def mergeAux (flip : Bool) (tol : ℚ) : ℕ → List Line → List Line → Option (List Line)
  | _, [], acc => some acc.reverse
  | 0, _ :: _, _ => none
  | fuel + 1, l :: rest, acc =>
    match extendChain flip tol (rest.length + 1) rest l with
    | none => none
    | some li => mergeAux flip tol fuel li.2 (li.1 :: acc)

/-- `LineCollection.merge(tolerance, flip)`: collections with fewer than two
lines are returned unchanged; otherwise the greedy chaining loop replaces the
lines.  The fuel `length + 1` always suffices and the `getD` fallback is
never taken (termination theorem). -/
def LineCollection.merge (lc : LineCollection) (tol : ℚ) (flip : Bool) : LineCollection :=
  if lc.lines.length < 2 then lc
  else ⟨(mergeAux flip tol (lc.lines.length + 1) lc.lines []).getD lc.lines⟩

end Vpype

namespace Vpype

/-- The fueled free-id search is correct whenever some value in its fuel
window is not a key: it returns the least id `≥ v` that is not a key. -/
theorem freeFrom_spec (keys : List ℤ) :
    ∀ (fuel : ℕ) (v : ℤ), (∃ j : ℕ, j < fuel ∧ (v + j) ∉ keys) →
      freeFrom keys fuel v ∉ keys ∧ v ≤ freeFrom keys fuel v ∧
        ∀ w : ℤ, v ≤ w → w < freeFrom keys fuel v → w ∈ keys := by
  intro fuel
  induction fuel with
  | zero =>
    intro v h
    rcases h with ⟨j, hj, _⟩
    exact absurd hj (Nat.not_lt_zero j)
  | succ n ih =>
    intro v h
    by_cases hv : v ∈ keys
    · have hrec : freeFrom keys (n + 1) v = freeFrom keys n (v + 1) := by
        simp [freeFrom, hv]
      rcases h with ⟨j, hj, hout⟩
      have hj0 : j ≠ 0 := by
        intro h0
        apply hout
        simpa [h0] using hv
      rcases Nat.exists_eq_succ_of_ne_zero hj0 with ⟨j', rfl⟩
      have hex : ∃ j : ℕ, j < n ∧ ((v + 1) + j) ∉ keys := by
        refine ⟨j', Nat.lt_of_succ_lt_succ hj, ?_⟩
        have : v + (j' + 1 : ℕ) = v + 1 + (j' : ℤ) := by push_cast; ring
        rwa [this] at hout
      rcases ih (v + 1) hex with ⟨h1, h2, h3⟩
      refine ⟨by rwa [hrec], ?_, ?_⟩
      · rw [hrec]; omega
      · intro w hw1 hw2
        rcases eq_or_lt_of_le hw1 with h | h
        · rwa [h] at hv
        · exact h3 w (by omega) (by rwa [hrec] at hw2)
    · have hrec : freeFrom keys (n + 1) v = v := by simp [freeFrom, hv]
      refine ⟨by rwa [hrec], by rw [hrec], ?_⟩
      intro w hw1 hw2
      rw [hrec] at hw2
      omega

/-- Pigeonhole: among `1, 2, …, keys.length + 1` some value is not a key. -/
theorem exists_free_slot (keys : List ℤ) :
    ∃ j : ℕ, j < keys.length + 1 ∧ ((1 : ℤ) + j) ∉ keys := by
  by_contra hall
  push_neg at hall
  have hsub : ((List.range (keys.length + 1)).map (fun j : ℕ => (1 : ℤ) + j)) ⊆ keys := by
    intro x hx
    rcases List.mem_map.mp hx with ⟨j, hj, rfl⟩
    exact hall j (List.mem_range.mp hj)
  have hnd : ((List.range (keys.length + 1)).map (fun j : ℕ => (1 : ℤ) + j)).Nodup := by
    refine List.Nodup.map ?_ (List.nodup_range _)
    intro a b hab
    have hab' : (1 : ℤ) + a = 1 + b := hab
    have : (a : ℤ) = b := by linarith
    exact_mod_cast this
  have hcard :
      ((List.range (keys.length + 1)).map (fun j : ℕ => (1 : ℤ) + j)).toFinset.card =
        keys.length + 1 := by
    rw [List.toFinset_card_of_nodup hnd]
    simp
  have hle :
      ((List.range (keys.length + 1)).map (fun j : ℕ => (1 : ℤ) + j)).toFinset.card ≤
        keys.toFinset.card := by
    apply Finset.card_le_card
    intro x hx
    exact List.mem_toFinset.mpr (hsub (List.mem_toFinset.mp hx))
  have := List.toFinset_card_le keys
  omega

/-- A layer id is a key of the layer dictionary iff lookup succeeds. -/
theorem getLayer_isSome_iff (vd : VectorData) (m : ℤ) :
    (vd.getLayer m).isSome = true ↔ m ∈ vd.layers.map Prod.fst := by
  simp only [VectorData.getLayer, Option.isSome_map']
  rw [List.find?_isSome]
  constructor
  · rintro ⟨kv, hmem, hp⟩
    exact List.mem_map.mpr ⟨kv, hmem, by simpa using hp⟩
  · intro h
    rcases List.mem_map.mp h with ⟨kv, hmem, hk⟩
    exact ⟨kv, hmem, by simp [hk]⟩

/-- `free_id` is never a key, and every positive id below it is a key: it is
the smallest unused positive id. -/
theorem free_id_spec (vd : VectorData) :
    vd.getLayer vd.free_id = none ∧ 1 ≤ vd.free_id ∧
      ∀ m : ℤ, 1 ≤ m → m < vd.free_id → (vd.getLayer m).isSome = true := by
  have h := freeFrom_spec (vd.layers.map Prod.fst) (vd.layers.length + 1) 1
    (by simpa using exists_free_slot (vd.layers.map Prod.fst))
  rcases h with ⟨h1, h2, h3⟩
  refine ⟨?_, h2, ?_⟩
  · rcases hn : vd.getLayer vd.free_id with _ | lc
    · rfl
    · exact absurd ((getLayer_isSome_iff vd vd.free_id).mp (by simp [hn])) h1
  · intro m hm1 hm2
    exact (getLayer_isSome_iff vd m).mpr (h3 m hm1 hm2)

/-- After `dictSet l k v`, looking up `k` yields `v`. -/
theorem dictSet_find (l : List (ℤ × LineCollection)) (k : ℤ) (v : LineCollection) :
    VectorData.getLayer ⟨dictSet l k v⟩ k = some v := by
  induction l with
  | nil => simp [VectorData.getLayer, dictSet]
  | cons kv rest ih =>
    by_cases hk : kv.1 = k
    · simp [VectorData.getLayer, dictSet, hk]
    · simpa [VectorData.getLayer, dictSet, hk] using ih

/-- After `add` at an explicit id, lookup at that id yields the stored (for a
fresh id) or extended (for an existing id) collection. -/
theorem add_getLayer (vd : VectorData) (lc : LineCollection) (lid : ℤ) :
    (vd.add lc (some lid)).getLayer lid =
      some (match vd.getLayer lid with
        | some old => old.extend lc
        | none => lc) := by
  rcases hl : vd.getLayer lid with _ | old
  · have hnone : (vd.layers.find? fun kv => decide (kv.1 = lid)) = none := by
      rcases hf : vd.layers.find? fun kv => decide (kv.1 = lid) with _ | kv
      · exact hf
      · exact absurd hl (by simp [VectorData.getLayer, hf])
    simp only [VectorData.add, Option.getD_some, hl]
    simp [VectorData.getLayer, List.find?_append, hnone]
  · simp only [VectorData.add, Option.getD_some, hl]
    exact dictSet_find vd.layers lid (old.extend lc)

/-- C6 (amended): explicit item assignment to a layer id `≤ 0` fails with an
invalid-layer-id error and cannot mutate the mapping, but `add` with an
explicit non-positive id performs no validation: it stores (or extends) a
layer under that id. -/
theorem c6_nonpositive_id_rejected (vd : VectorData) (lc : LineCollection)
    (lid : ℤ) (h : lid ≤ 0) :
    vd.setitem lid lc = Except.error "expected non-null, positive layer id" ∧
      ((vd.add lc (some lid)).getLayer lid).isSome = true := by
  have hlt : lid < 1 := by omega
  constructor
  · simp [VectorData.setitem, hlt]
  · rw [add_getLayer]
    rfl

/-- Witness for C6 at a concrete input: id `0` on an empty vector data. -/
theorem c6_nonpositive_id_rejected_witness :
    ((0 : ℤ) ≤ 0) ∧
      (VectorData.setitem ⟨[]⟩ 0 ⟨[[(0, 0)]]⟩ =
          Except.error "expected non-null, positive layer id" ∧
        ((VectorData.add ⟨[]⟩ ⟨[[(0, 0)]]⟩ (some 0)).getLayer 0).isSome = true) :=
  ⟨by decide, c6_nonpositive_id_rejected ⟨[]⟩ ⟨[[(0, 0)]]⟩ 0 (by decide)⟩

/-- C6 counterexample: the claim as stated says `add` with an explicit id
`≤ 0` fails and leaves the mapping unchanged; on the code, `add` at id `0`
succeeds and the mapping now holds a layer `0`. -/
theorem c6_add_zero_succeeds :
    VectorData.add ⟨[]⟩ ⟨[[(0, 0)]]⟩ (some 0) = ⟨[(0, ⟨[[(0, 0)]]⟩)]⟩ ∧
      VectorData.add ⟨[]⟩ ⟨[[(0, 0)]]⟩ (some 0) ≠ ⟨[]⟩ := by
  constructor
  · rfl
  · decide

/-- C7: `add` with the id omitted stores the collection under `free_id`, the
smallest positive id not in use (`1` on an empty vector data, `3` on one
holding ids `{1, 2, 4}`), and `add` at an id that already holds a layer
appends the new lines after the existing ones. -/
theorem c7_add_free_id_and_extend (vd : VectorData) (lc : LineCollection)
    (lid m : ℤ) (hex : (vd.getLayer lid).isSome = true)
    (hm1 : 1 ≤ m) (hm2 : m < vd.free_id) :
    vd.getLayer vd.free_id = none ∧
      (vd.getLayer m).isSome = true ∧
      vd.add lc none = ⟨vd.layers ++ [(vd.free_id, lc)]⟩ ∧
      VectorData.free_id ⟨[]⟩ = 1 ∧
      VectorData.free_id ⟨[(1, ⟨[]⟩), (2, ⟨[]⟩), (4, ⟨[]⟩)]⟩ = 3 ∧
      (vd.add lc (some lid)).getLayer lid =
        some ⟨((vd.getLayer lid).getD ⟨[]⟩).lines ++ lc.lines⟩ := by
  rcases free_id_spec vd with ⟨hfree, _, hsmall⟩
  refine ⟨hfree, hsmall m hm1 hm2, ?_, by decide, by decide, ?_⟩
  · simp [VectorData.add, hfree]
  · rcases hl : vd.getLayer lid with _ | old
    · rw [hl] at hex; simp at hex
    · rw [add_getLayer, hl]
      rfl

/-- Witness for C7 at a concrete input: ids `{1, 2, 4}`, extending layer 1,
with `m = 2` below the free id `3`. -/
theorem c7_add_free_id_and_extend_witness :
    ((VectorData.getLayer ⟨[(1, ⟨[[(0, 0)]]⟩), (2, ⟨[]⟩), (4, ⟨[]⟩)]⟩ 1).isSome = true) ∧
      ((1 : ℤ) ≤ 2) ∧
      ((2 : ℤ) < VectorData.free_id ⟨[(1, ⟨[[(0, 0)]]⟩), (2, ⟨[]⟩), (4, ⟨[]⟩)]⟩) ∧
      (VectorData.getLayer ⟨[(1, ⟨[[(0, 0)]]⟩), (2, ⟨[]⟩), (4, ⟨[]⟩)]⟩
          (VectorData.free_id ⟨[(1, ⟨[[(0, 0)]]⟩), (2, ⟨[]⟩), (4, ⟨[]⟩)]⟩) = none ∧
        (VectorData.getLayer ⟨[(1, ⟨[[(0, 0)]]⟩), (2, ⟨[]⟩), (4, ⟨[]⟩)]⟩ 2).isSome = true ∧
        VectorData.add ⟨[(1, ⟨[[(0, 0)]]⟩), (2, ⟨[]⟩), (4, ⟨[]⟩)]⟩ ⟨[[(1, 1)]]⟩ none =
          ⟨[(1, ⟨[[(0, 0)]]⟩), (2, ⟨[]⟩), (4, ⟨[]⟩)] ++
            [(VectorData.free_id ⟨[(1, ⟨[[(0, 0)]]⟩), (2, ⟨[]⟩), (4, ⟨[]⟩)]⟩, ⟨[[(1, 1)]]⟩)]⟩ ∧
        VectorData.free_id ⟨[]⟩ = 1 ∧
        VectorData.free_id ⟨[(1, ⟨[]⟩), (2, ⟨[]⟩), (4, ⟨[]⟩)]⟩ = 3 ∧
        (VectorData.add ⟨[(1, ⟨[[(0, 0)]]⟩), (2, ⟨[]⟩), (4, ⟨[]⟩)]⟩ ⟨[[(1, 1)]]⟩
              (some 1)).getLayer 1 =
          some ⟨((VectorData.getLayer ⟨[(1, ⟨[[(0, 0)]]⟩), (2, ⟨[]⟩), (4, ⟨[]⟩)]⟩ 1).getD
              ⟨[]⟩).lines ++ [[(1, 1)]]⟩) :=
  ⟨by decide, by decide, by decide,
    c7_add_free_id_and_extend ⟨[(1, ⟨[[(0, 0)]]⟩), (2, ⟨[]⟩), (4, ⟨[]⟩)]⟩ ⟨[[(1, 1)]]⟩ 1 2
      (by decide) (by decide) (by decide)⟩

/-- The selected candidate is one of the inspected candidates. -/
theorem selectNearest_mem (p : Point) :
    ∀ (l : List (ℕ × Bool × Point)) (best), selectNearest p best l ∈ best :: l := by
  intro l
  induction l with
  | nil =>
    intro best
    simp [selectNearest]
  | cons c rest ih =>
    intro best
    simp only [selectNearest]
    by_cases hd : dist2 p c.2.2 < dist2 p best.2.2
    · rw [if_pos hd]
      rcases List.mem_cons.mp (ih c) with h | h
      · exact List.mem_cons.mpr (Or.inr (by simp [h]))
      · exact List.mem_cons.mpr (Or.inr (List.mem_cons.mpr (Or.inr h)))
    · rw [if_neg hd]
      rcases List.mem_cons.mp (ih best) with h | h
      · exact List.mem_cons.mpr (Or.inl h)
      · exact List.mem_cons.mpr (Or.inr (List.mem_cons.mpr (Or.inr h)))

/-- Every candidate's index points into the index list. -/
theorem candidates_fst_lt (reverse : Bool) (index : List Line) :
    ∀ x ∈ candidates reverse index, x.1 < index.length := by
  intro x hx
  rcases List.mem_flatMap.mp hx with ⟨il, hil, hx2⟩
  have hlt : il.1 < index.length := by
    have hg := List.mem_enum_iff_getElem?.mp hil
    by_contra hge
    rw [List.getElem?_eq_none (by omega)] at hg
    cases hg
  rcases List.mem_cons.mp hx2 with h | h
  · rw [h]
    exact hlt
  · rcases reverse with _ | _
    · simp at h
    · simp only [if_pos] at h
      rcases List.mem_cons.mp h with h2 | h2
      · rw [h2]
        exact hlt
      · simp at h2

/-- A successful nearest-endpoint query returns an index into the list. -/
theorem findNearestWithin_some_lt (reverse : Bool) (index : List Line) (p : Point)
    (tol : ℚ) (ir : ℕ × Bool)
    (h : findNearestWithin reverse index p tol = some ir) : ir.1 < index.length := by
  unfold findNearestWithin at h
  rcases hf : (candidates reverse index).filter (fun c => withinTol p c.2.2 tol) with
    _ | ⟨c, rest⟩
  · rw [hf] at h
    cases h
  · rw [hf] at h
    simp only [] at h
    have hmem : selectNearest p c rest ∈ c :: rest := selectNearest_mem p rest c
    have hcand : selectNearest p c rest ∈ candidates reverse index := by
      have hin : selectNearest p c rest ∈
          (candidates reverse index).filter (fun c => withinTol p c.2.2 tol) := by
        rw [hf]
        exact hmem
      exact (List.mem_filter.mp hin).1
    have hlt := candidates_fst_lt reverse index _ hcand
    cases h
    exact hlt

/-- A successful query round returns an index into the list. -/
theorem queryStep_some_lt (flip : Bool) (tol : ℚ) (index : List Line) (line : Line)
    (ir : ℕ × Bool) (line2 : Line)
    (h : queryStep flip tol index line = (some ir, line2)) : ir.1 < index.length := by
  unfold queryStep at h
  rcases h1 : findNearestWithin flip index (lineEnd line) tol with _ | r
  · rw [h1] at h
    by_cases hf : flip
    · rw [if_pos hf] at h
      have h2 : findNearestWithin flip index (lineStart line) tol = some ir :=
        congrArg Prod.fst h
      exact findNearestWithin_some_lt _ _ _ _ _ h2
    · rw [if_neg hf] at h
      have h2 : (none : Option (ℕ × Bool)) = some ir := congrArg Prod.fst h
      cases h2
  · rw [h1] at h
    have h2 : (some r : Option (ℕ × Bool)) = some ir := congrArg Prod.fst h
    injection h2 with h3
    rw [← h3]
    exact findNearestWithin_some_lt _ _ _ _ _ h1

/-- The inner merge loop succeeds whenever its fuel exceeds the index size,
and never grows the index: each successful extension removes one line. -/
theorem extendChain_some (flip : Bool) (tol : ℚ) :
    ∀ (fuel : ℕ) (index : List Line) (line : Line), index.length < fuel →
      ∃ res : Line × List Line, extendChain flip tol fuel index line = some res ∧
        res.2.length ≤ index.length := by
  intro fuel
  induction fuel with
  | zero =>
    intro index line h
    exact absurd h (Nat.not_lt_zero _)
  | succ n ih =>
    intro index line h
    rcases hq : queryStep flip tol index line with ⟨q, line2⟩
    rcases q with _ | ir
    · refine ⟨(line2, index), ?_, le_refl _⟩
      rw [extendChain, hq]
    · have hlt : ir.1 < index.length := queryStep_some_lt flip tol index line ir line2 hq
      have hlen : (index.eraseIdx ir.1).length = index.length - 1 :=
        List.length_eraseIdx_of_lt hlt
      have hfuel : (index.eraseIdx ir.1).length < n := by omega
      rcases ih (index.eraseIdx ir.1)
          (line2 ++ if ir.2 then (index.getD ir.1 []).reverse else index.getD ir.1 []) hfuel
        with ⟨res, heq, hle⟩
      refine ⟨res, ?_, by omega⟩
      rw [extendChain, hq]
      exact heq

/-- The outer merge loop succeeds whenever its fuel exceeds the number of
remaining lines: every chain consumes at least its seed. -/
theorem mergeAux_some (flip : Bool) (tol : ℚ) :
    ∀ (fuel : ℕ) (lines acc : List Line), lines.length < fuel →
      (mergeAux flip tol fuel lines acc).isSome = true := by
  intro fuel
  induction fuel with
  | zero =>
    intro lines acc h
    exact absurd h (Nat.not_lt_zero _)
  | succ n ih =>
    intro lines acc h
    rcases lines with _ | ⟨l, rest⟩
    · rw [mergeAux]
      rfl
    · rcases extendChain_some flip tol (rest.length + 1) rest l (by omega) with ⟨res, heq, hle⟩
      rw [mergeAux, heq]
      apply ih
      have hrest : rest.length < n := by
        simp only [List.length_cons] at h
        omega
      omega

/-- C3: merge terminates — under the spatial-index contract (each pop
removes exactly one registered line, queries only return handles to lines
still present), the fueled merge loop with fuel `number of lines + 1`
always returns a result: the index strictly shrinks at each extension and
each chain consumes its seed, so the outer loop ends with the index empty. -/
theorem c3_merge_terminates (lines : List Line) (tol : ℚ) (flip : Bool) :
    (mergeAux flip tol (lines.length + 1) lines []).isSome = true :=
  mergeAux_some flip tol (lines.length + 1) lines [] (by omega)

/-- Unfolding step of the fueled inner loop. -/
theorem extendChain_succ_eq (flip : Bool) (tol : ℚ) (fuel : ℕ) (index : List Line)
    (line : Line) :
    extendChain flip tol (fuel + 1) index line =
      match queryStep flip tol index line with
      | (none, line2) => some (line2, index)
      | (some ir, line2) =>
        extendChain flip tol fuel (index.eraseIdx ir.1)
          (line2 ++ if ir.2 then (index.getD ir.1 []).reverse else index.getD ir.1 []) := rfl

/-- The outer loop on an empty index emits the accumulated chains. -/
theorem mergeAux_nil_eq (flip : Bool) (tol : ℚ) (fuel : ℕ) (acc : List Line) :
    mergeAux flip tol fuel [] acc = some acc.reverse := by
  cases fuel <;> rfl

/-- Unfolding step of the fueled outer loop. -/
theorem mergeAux_cons_eq (flip : Bool) (tol : ℚ) (fuel : ℕ) (l : Line) (rest acc : List Line) :
    mergeAux flip tol (fuel + 1) (l :: rest) acc =
      match extendChain flip tol (rest.length + 1) rest l with
      | none => none
      | some li => mergeAux flip tol fuel li.2 (li.1 :: acc) := rfl

/-- There are no candidates over an empty index. -/
theorem findNearestWithin_nil (reverse : Bool) (p : Point) (tol : ℚ) :
    findNearestWithin reverse [] p tol = none := rfl

/-- Candidate list over a one-line index without reversal. -/
theorem candidates_single_false (B : Line) :
    candidates false [B] = [(0, false, lineStart B)] := rfl

/-- Candidate list over a one-line index with reversal permitted. -/
theorem candidates_single_true (B : Line) :
    candidates true [B] = [(0, false, lineStart B), (0, true, lineEnd B)] := rfl

/-- Coinciding points are within any nonnegative tolerance. -/
theorem withinTol_of_eq (p q : Point) (tol : ℚ) (hpq : p = q) (h : 0 ≤ tol) :
    withinTol p q tol = true := by
  subst hpq
  simp [withinTol, dist2, h, mul_self_nonneg]

/-- Points farther apart than the tolerance are not within it. -/
theorem withinTol_false_of_far (p q : Point) (tol : ℚ) (h : tol * tol < dist2 p q) :
    withinTol p q tol = false := by
  have hn : ¬(dist2 p q ≤ tol * tol) := not_le.mpr h
  simp [withinTol, hn]

/-- Query over a one-line no-reverse index, matching start. -/
theorem fnw_single_false_hit (B : Line) (p : Point) (tol : ℚ)
    (h : withinTol p (lineStart B) tol = true) :
    findNearestWithin false [B] p tol = some (0, false) := by
  unfold findNearestWithin
  rw [candidates_single_false]
  simp [List.filter, h, selectNearest]

/-- Query over a one-line no-reverse index, missing. -/
theorem fnw_single_false_miss (B : Line) (p : Point) (tol : ℚ)
    (h : withinTol p (lineStart B) tol = false) :
    findNearestWithin false [B] p tol = none := by
  unfold findNearestWithin
  rw [candidates_single_false]
  simp [List.filter, h]

/-- Query over a one-line reversible index hitting the start only. -/
theorem fnw_single_true_hit_start (B : Line) (p : Point) (tol : ℚ)
    (h1 : withinTol p (lineStart B) tol = true)
    (h2 : withinTol p (lineEnd B) tol = false) :
    findNearestWithin true [B] p tol = some (0, false) := by
  unfold findNearestWithin
  rw [candidates_single_true]
  simp [List.filter, h1, h2, selectNearest]

/-- Query over a one-line reversible index missing both endpoints. -/
theorem fnw_single_true_miss (B : Line) (p : Point) (tol : ℚ)
    (h1 : withinTol p (lineStart B) tol = false)
    (h2 : withinTol p (lineEnd B) tol = false) :
    findNearestWithin true [B] p tol = none := by
  unfold findNearestWithin
  rw [candidates_single_true]
  simp [List.filter, h1, h2]

/-- Shared trace: merging two lines whose junction coincides exactly, with
tolerance 0 and no flipping, concatenates them without dropping a point. -/
theorem merge_two_joined (A B : Line) (hjoin : lineEnd A = lineStart B) :
    LineCollection.merge ⟨[A, B]⟩ 0 false = ⟨[A ++ B]⟩ := by
  have hw : withinTol (lineEnd A) (lineStart B) 0 = true :=
    withinTol_of_eq _ _ _ hjoin le_rfl
  have e1 : extendChain false 0 1 [] (A ++ B) = some (A ++ B, []) := by
    rw [extendChain_succ_eq]
    simp [queryStep, findNearestWithin_nil]
  have e2 : extendChain false 0 2 [B] A = some (A ++ B, []) := by
    rw [extendChain_succ_eq]
    have hq : queryStep false 0 [B] A = (some (0, false), A) := by
      simp [queryStep, fnw_single_false_hit B (lineEnd A) 0 hw]
    rw [hq]
    simpa using e1
  have m1 : mergeAux false 0 3 [A, B] [] = some [A ++ B] := by
    rw [mergeAux_cons_eq]
    have hl : (([B] : List Line).length + 1) = 2 := rfl
    rw [hl, e2]
    simp [mergeAux_nil_eq]
  unfold LineCollection.merge
  have hL : (([A, B] : List Line).length) = 2 := rfl
  rw [hL, if_neg (by norm_num)]
  have h3 : (2 : ℕ) + 1 = 3 := rfl
  rw [h3, m1]
  rfl

/-- C1 (amended): merging two lines, each with at least two points, whose
junction coincides exactly (A's last point equals B's first point, all other
endpoint pairs strictly apart), with tolerance 0 and flip disabled, yields
exactly one line equal to A followed by B: the coinciding endpoint appears
twice and the point count is `len(A) + len(B)`. -/
theorem c1_merge_exact_join (A B : Line) (hA : 2 ≤ A.length) (hB : 2 ≤ B.length)
    (hjoin : lineEnd A = lineStart B)
    (hf1 : 0 < dist2 (lineStart A) (lineStart B))
    (hf2 : 0 < dist2 (lineStart A) (lineEnd B))
    (hf3 : 0 < dist2 (lineEnd A) (lineEnd B)) :
    LineCollection.merge ⟨[A, B]⟩ 0 false = ⟨[A ++ B]⟩ ∧
      (A ++ B).length = A.length + B.length :=
  ⟨merge_two_joined A B hjoin, by simp⟩

/-- Witness for C1 at a concrete input: A = (0,0)–(1,0), B = (1,0)–(2,0). -/
theorem c1_merge_exact_join_witness :
    (2 ≤ ([(0, 0), (1, 0)] : Line).length) ∧ (2 ≤ ([(1, 0), (2, 0)] : Line).length) ∧
      lineEnd [(0, 0), (1, 0)] = lineStart [(1, 0), (2, 0)] ∧
      (0 < dist2 (lineStart [(0, 0), (1, 0)]) (lineStart [(1, 0), (2, 0)])) ∧
      (0 < dist2 (lineStart [(0, 0), (1, 0)]) (lineEnd [(1, 0), (2, 0)])) ∧
      (0 < dist2 (lineEnd [(0, 0), (1, 0)]) (lineEnd [(1, 0), (2, 0)])) ∧
      (LineCollection.merge ⟨[[(0, 0), (1, 0)], [(1, 0), (2, 0)]]⟩ 0 false =
          ⟨[[(0, 0), (1, 0)] ++ [(1, 0), (2, 0)]]⟩ ∧
        ([(0, 0), (1, 0)] ++ [(1, 0), (2, 0)] : Line).length =
          ([(0, 0), (1, 0)] : Line).length + ([(1, 0), (2, 0)] : Line).length) :=
  ⟨by decide, by decide, by decide,
    by norm_num [dist2, lineStart, lineEnd],
    by norm_num [dist2, lineStart, lineEnd],
    by norm_num [dist2, lineStart, lineEnd],
    c1_merge_exact_join [(0, 0), (1, 0)] [(1, 0), (2, 0)] (by decide) (by decide) (by decide)
      (by norm_num [dist2, lineStart, lineEnd])
      (by norm_num [dist2, lineStart, lineEnd])
      (by norm_num [dist2, lineStart, lineEnd])⟩

/-- C1 counterexample: on the concrete pair A = (0,0)–(1,0), B = (1,0)–(2,0)
with coinciding junction, the merged line holds 4 points — the shared point
is duplicated — while the claim asserts `len(A) + len(B) - 1 = 3` points. -/
theorem c1_duplicate_point_counterexample :
    lineEnd [(0, 0), (1, 0)] = lineStart [(1, 0), (2, 0)] ∧
      (LineCollection.merge ⟨[[(0, 0), (1, 0)], [(1, 0), (2, 0)]]⟩ 0 false).lines =
        [[(0, 0), (1, 0), (1, 0), (2, 0)]] ∧
      ([(0, 0), (1, 0), (1, 0), (2, 0)] : Line).length ≠
        ([(0, 0), (1, 0)] : Line).length + ([(1, 0), (2, 0)] : Line).length - 1 := by
  refine ⟨by decide, ?_, by decide⟩
  rw [merge_two_joined [(0, 0), (1, 0)] [(1, 0), (2, 0)] (by decide)]
  rfl

/-- C2: two lines with coinciding first points, every other endpoint pair
farther apart than the (nonnegative) tolerance: merge with flip joins them
into a single line (count 2 − 1 = 1); merge without flip leaves the
collection unchanged. -/
theorem c2_merge_flip_start_start (A B : Line) (tol : ℚ)
    (hA : 2 ≤ A.length) (hB : 2 ≤ B.length)
    (hstart : lineStart A = lineStart B) (htol : 0 ≤ tol)
    (hf1 : tol * tol < dist2 (lineEnd A) (lineStart B))
    (hf2 : tol * tol < dist2 (lineEnd A) (lineEnd B))
    (hf3 : tol * tol < dist2 (lineStart A) (lineEnd B)) :
    (LineCollection.merge ⟨[A, B]⟩ tol true).lines.length = 1 ∧
      LineCollection.merge ⟨[A, B]⟩ tol false = ⟨[A, B]⟩ := by
  have hw1 : withinTol (lineEnd A) (lineStart B) tol = false :=
    withinTol_false_of_far _ _ _ hf1
  have hw2 : withinTol (lineEnd A) (lineEnd B) tol = false :=
    withinTol_false_of_far _ _ _ hf2
  have hw3 : withinTol (lineStart A) (lineStart B) tol = true :=
    withinTol_of_eq _ _ _ hstart htol
  have hw4 : withinTol (lineStart A) (lineEnd B) tol = false :=
    withinTol_false_of_far _ _ _ hf3
  constructor
  · have e1 : ∀ L : Line, extendChain true tol 1 [] L = some (L.reverse, []) := by
      intro L
      rw [extendChain_succ_eq]
      simp [queryStep, findNearestWithin_nil]
    have hqA : queryStep true tol [B] A = (some (0, false), A.reverse) := by
      simp [queryStep, fnw_single_true_miss B (lineEnd A) tol hw1 hw2,
        fnw_single_true_hit_start B (lineStart A) tol hw3 hw4]
    have e2 : extendChain true tol 2 [B] A = some ((A.reverse ++ B).reverse, []) := by
      rw [extendChain_succ_eq, hqA]
      simpa using e1 (A.reverse ++ B)
    have m1 : mergeAux true tol 3 [A, B] [] = some [(A.reverse ++ B).reverse] := by
      rw [mergeAux_cons_eq]
      have hl : (([B] : List Line).length + 1) = 2 := rfl
      rw [hl, e2]
      simp [mergeAux_nil_eq]
    unfold LineCollection.merge
    have hL : (([A, B] : List Line).length) = 2 := rfl
    rw [hL, if_neg (by norm_num)]
    have h3 : (2 : ℕ) + 1 = 3 := rfl
    rw [h3, m1]
    rfl
  · have e1 : extendChain false tol 1 [] B = some (B, []) := by
      rw [extendChain_succ_eq]
      simp [queryStep, findNearestWithin_nil]
    have hqA : queryStep false tol [B] A = (none, A) := by
      simp [queryStep, fnw_single_false_miss B (lineEnd A) tol hw1]
    have e2 : extendChain false tol 2 [B] A = some (A, [B]) := by
      rw [extendChain_succ_eq, hqA]
    have m1 : mergeAux false tol 3 [A, B] [] = some [A, B] := by
      rw [mergeAux_cons_eq]
      have hl : (([B] : List Line).length + 1) = 2 := rfl
      rw [hl, e2]
      show mergeAux false tol 2 [B] [A] = some [A, B]
      rw [mergeAux_cons_eq]
      have hl0 : (([] : List Line).length + 1) = 1 := rfl
      rw [hl0, e1]
      show mergeAux false tol 1 [] [B, A] = some [A, B]
      rw [mergeAux_nil_eq]
      rfl
    unfold LineCollection.merge
    have hL : (([A, B] : List Line).length) = 2 := rfl
    rw [hL, if_neg (by norm_num)]
    have h3 : (2 : ℕ) + 1 = 3 := rfl
    rw [h3, m1]
    rfl

/-- Witness for C2 at a concrete input: A = (0,0)–(5,0), B = (0,0)–(0,7),
tolerance 1. -/
theorem c2_merge_flip_start_start_witness :
    (2 ≤ ([(0, 0), (5, 0)] : Line).length) ∧ (2 ≤ ([(0, 0), (0, 7)] : Line).length) ∧
      lineStart [(0, 0), (5, 0)] = lineStart [(0, 0), (0, 7)] ∧
      ((0 : ℚ) ≤ 1) ∧
      ((1 : ℚ) * 1 < dist2 (lineEnd [(0, 0), (5, 0)]) (lineStart [(0, 0), (0, 7)])) ∧
      ((1 : ℚ) * 1 < dist2 (lineEnd [(0, 0), (5, 0)]) (lineEnd [(0, 0), (0, 7)])) ∧
      ((1 : ℚ) * 1 < dist2 (lineStart [(0, 0), (5, 0)]) (lineEnd [(0, 0), (0, 7)])) ∧
      ((LineCollection.merge ⟨[[(0, 0), (5, 0)], [(0, 0), (0, 7)]]⟩ 1 true).lines.length = 1 ∧
        LineCollection.merge ⟨[[(0, 0), (5, 0)], [(0, 0), (0, 7)]]⟩ 1 false =
          ⟨[[(0, 0), (5, 0)], [(0, 0), (0, 7)]]⟩) :=
  ⟨by decide, by decide, by decide, by norm_num,
    by norm_num [dist2, lineStart, lineEnd],
    by norm_num [dist2, lineStart, lineEnd],
    by norm_num [dist2, lineStart, lineEnd],
    c2_merge_flip_start_start [(0, 0), (5, 0)] [(0, 0), (0, 7)] 1 (by decide) (by decide)
      (by decide) (by norm_num)
      (by norm_num [dist2, lineStart, lineEnd])
      (by norm_num [dist2, lineStart, lineEnd])
      (by norm_num [dist2, lineStart, lineEnd])⟩

/-- C4 counterexample: the claim states that a root with view box
`0 0 100 100`, width attribute 50 and no height attribute resolves to
`scale_x = scale_y = 0.5` and maps the line (0,0)–(100,100) to (0,0)–(50,50).
On the code, the missing height attribute falls back to the view-box height
100, so `scale_y = 1` (not 0.5) and the line maps to (0,0)–(50,100). -/
theorem c4_missing_height_counterexample :
    calculate_page_size ⟨some (0, 0, 100, 100), some 50, none⟩ =
        (some 50, some 100, 1 / 2, 1, 0, 0) ∧
      ((1 : ℚ) ≠ 1 / 2) ∧
      transformLine (1 / 2) 1 0 0 [(0, 0), (100, 100)] = [(0, 0), (50, 100)] ∧
      ([(0, 0), (50, 100)] : Line) ≠ [(0, 0), (50, 50)] := by
  refine ⟨?_, by norm_num, ?_, by decide⟩
  · simp only [calculate_page_size]
    norm_num
  · simp only [transformLine, transformPoint, List.map_cons, List.map_nil]
    norm_num

/-- C4 (amended): for a root declaring view box `0 0 100 100` and width 50
(canonical units) and no height attribute, the resolved page size is
(50, 100) with `scale_x = 1/2`, `scale_y = 1` and zero offsets, and the
source line (0,0)–(100,100) becomes (0,0)–(50,100) after the per-point
transform `(p + offset) * scale`. -/
theorem c4_viewbox_width_scaling :
    calculate_page_size ⟨some (0, 0, 100, 100), some 50, none⟩ =
        (some 50, some 100, 1 / 2, 1, 0, 0) ∧
      transformLine (1 / 2) 1 0 0 [(0, 0), (100, 100)] = [(0, 0), (50, 100)] := by
  constructor
  · simp only [calculate_page_size]
    norm_num
  · simp only [transformLine, transformPoint, List.map_cons, List.map_nil]
    norm_num

/-- C5: the multilayer-import layer id of a top-level group is derived by
priority label-digits / id-digits / 1-based position with the 0-to-1 remap
(proved as an equivalence with a definition written from the specification's
words), and on the spec's examples: a first group labeled "Layer 3" goes to
layer 3, a second group with id "g2" and no label goes to layer 2, and a
label parsing to 0 is remapped to layer 1. -/
theorem c5_layer_id_assignment :
    (∀ (label idAttr : Option String) (i : ℕ),
        layer_id_for label idAttr i = layerIdSpec label idAttr i) ∧
      layer_id_for (some "Layer 3") none 0 = 3 ∧
      layer_id_for none (some "g2") 1 = 2 ∧
      layer_id_for (some "Layer 0") none 0 = 1 := by
  refine ⟨?_, by decide, by decide, by decide⟩
  intro label idAttr i
  unfold layer_id_for layerIdSpec
  by_cases h1 : stripNonDigits (label.getD "") = ""
  · by_cases h2 : stripNonDigits (idAttr.getD "") = "" <;> simp [h1, h2]
  · simp [h1]

/-- A nonempty line collection always has bounds in the model. -/
theorem bounds_isSome_of_ne_nil (lc : LineCollection) (h : lc.lines ≠ []) :
    ∃ b, lc.bounds = some b := by
  rcases hl : lc.lines with _ | ⟨l, rest⟩
  · exact absurd hl h
  · exact ⟨(coordMin (lineMinX l) (rest.map lineMinX),
      coordMin (lineMinY l) (rest.map lineMinY),
      coordMax (lineMaxX l) (rest.map lineMaxX),
      coordMax (lineMaxY l) (rest.map lineMaxY)), by simp [LineCollection.bounds, hl]⟩

/-- Every qualifying layer of a bounds computation holds at least one line. -/
theorem mem_qualifying_ne_nil (vd : VectorData) (ids : Option (List ℤ)) (l : LineCollection)
    (h : l ∈ vd.qualifying ids) : l.lines ≠ [] := by
  unfold VectorData.qualifying at h
  rcases List.mem_filterMap.mp h with ⟨vid, _, hf⟩
  rcases hg : vd.getLayer vid with _ | lc
  · rw [hg] at hf
    cases hf
  · rw [hg] at hf
    have hf2 : (if 0 < lc.lines.length then some lc else none) = some l := hf
    by_cases hl : 0 < lc.lines.length
    · rw [if_pos hl] at hf2
      injection hf2 with hf3
      subst hf3
      intro hnil
      rw [hnil] at hl
      simp at hl
    · rw [if_neg hl] at hf2
      cases hf2

/-- `filterMap` returns exactly the values related pointwise by `Forall₂`. -/
theorem filterMap_eq_of_forall₂ {α β : Type} (f : α → Option β) :
    ∀ {L : List α} {bs : List β}, List.Forall₂ (fun l b => f l = some b) L bs →
      L.filterMap f = bs := by
  intro L bs h
  induction h with
  | nil => rfl
  | cons h1 _ ih => simp [List.filterMap_cons, h1, ih]

/-- C8: `bounds(ids)` over the existing, non-empty layers among `ids` (all
layers when omitted) returns the componentwise union of those layers'
bounds, and yields no result exactly when no layer qualifies; a line
collection's own `bounds` yields no result when the collection is empty.
The hypothesis `hw` excludes degenerate empty lines inside layers, on which
the Python code would raise instead of returning. -/
theorem c8_bounds_union (vd : VectorData) (ids : Option (List ℤ)) (lc : LineCollection)
    (bs : List (ℚ × ℚ × ℚ × ℚ))
    (hw : ∀ kv ∈ vd.layers, ∀ l ∈ kv.2.lines, l ≠ ([] : Line))
    (hbs : List.Forall₂ (fun l b => LineCollection.bounds l = some b) (vd.qualifying ids) bs) :
    (lc.lines = [] → lc.bounds = none) ∧
      (vd.bounds ids = none ↔ vd.qualifying ids = []) ∧
      vd.bounds ids = foldBounds bs := by
  have hfm : (vd.qualifying ids).filterMap LineCollection.bounds = bs :=
    filterMap_eq_of_forall₂ _ hbs
  refine ⟨?_, ?_, ?_⟩
  · intro h
    simp [LineCollection.bounds, h]
  · unfold VectorData.bounds
    rcases hq : vd.qualifying ids with _ | ⟨q, qs⟩
    · simp [foldBounds]
    · have hne : q.lines ≠ [] :=
        mem_qualifying_ne_nil vd ids q (by rw [hq]; exact List.mem_cons_self q qs)
      rcases bounds_isSome_of_ne_nil q hne with ⟨b0, hb0⟩
      simp [List.filterMap_cons, hb0, foldBounds]
  · unfold VectorData.bounds
    rw [hfm]

/-- Witness for C8 at a concrete input: layers 1 and 3 qualify (layer 2 is
empty), their bounds union componentwise. -/
theorem c8_bounds_union_witness :
    (∀ kv ∈ (⟨[(1, ⟨[[(1, 2)]]⟩), (2, ⟨[]⟩), (3, ⟨[[(5, 1)]]⟩)]⟩ : VectorData).layers,
      ∀ l ∈ kv.2.lines, l ≠ ([] : Line)) ∧
      List.Forall₂ (fun l b => LineCollection.bounds l = some b)
        ((⟨[(1, ⟨[[(1, 2)]]⟩), (2, ⟨[]⟩), (3, ⟨[[(5, 1)]]⟩)]⟩ : VectorData).qualifying none)
        [(1, 2, 1, 2), (5, 1, 5, 1)] ∧
      (((⟨[]⟩ : LineCollection).lines = [] → (⟨[]⟩ : LineCollection).bounds = none) ∧
        ((⟨[(1, ⟨[[(1, 2)]]⟩), (2, ⟨[]⟩), (3, ⟨[[(5, 1)]]⟩)]⟩ : VectorData).bounds none = none ↔
          (⟨[(1, ⟨[[(1, 2)]]⟩), (2, ⟨[]⟩), (3, ⟨[[(5, 1)]]⟩)]⟩ : VectorData).qualifying none =
            []) ∧
        (⟨[(1, ⟨[[(1, 2)]]⟩), (2, ⟨[]⟩), (3, ⟨[[(5, 1)]]⟩)]⟩ : VectorData).bounds none =
          some (List.foldl union4 (1, 2, 1, 2) [(5, 1, 5, 1)])) :=
  ⟨by decide, List.Forall₂.cons rfl (List.Forall₂.cons rfl List.Forall₂.nil),
    c8_bounds_union ⟨[(1, ⟨[[(1, 2)]]⟩), (2, ⟨[]⟩), (3, ⟨[[(5, 1)]]⟩)]⟩ none ⟨[]⟩
      [(1, 2, 1, 2), (5, 1, 5, 1)] (by decide)
      (List.Forall₂.cons rfl (List.Forall₂.cons rfl List.Forall₂.nil))⟩

/-- Reseaming preserves the number of points. -/
theorem reloop_line_length (L : Line) (loc : ℕ) (hlen : 2 ≤ L.length)
    (hloc : loc < L.length - 1) : (reloop_line L loc).length = L.length := by
  simp only [reloop_line, List.length_append, List.length_drop, List.length_take,
    List.length_set]
  omega

/-- The head of the reseamed line is the endpoint-averaged line's point at
the seam location. -/
theorem reloop_line_head (L : Line) (loc : ℕ) (hlen : 2 ≤ L.length)
    (hloc : loc < L.length - 1) :
    lineStart (reloop_line L loc) =
      ((L.set 0 (end_point L)).set (L.length - 1) (end_point L)).getD loc zp := by
  have hlt : loc < ((L.set 0 (end_point L)).set (L.length - 1) (end_point L)).length := by
    simp only [List.length_set]
    omega
  simp only [reloop_line, lineStart, List.headD_eq_head?_getD, List.head?_eq_getElem?]
  rw [List.getElem?_append_left (by simp only [List.length_drop, List.length_set]; omega)]
  rw [List.getElem?_drop, Nat.add_zero, List.getElem?_eq_getElem hlt]
  rw [List.getD_eq_getElem?_getD, List.getElem?_eq_getElem hlt]

/-- The last point of the reseamed line equals its head: the endpoint-averaged
line's point at the seam location. -/
theorem reloop_line_last (L : Line) (loc : ℕ) (hlen : 2 ≤ L.length)
    (hloc : loc < L.length - 1) :
    lineEnd (reloop_line L loc) =
      ((L.set 0 (end_point L)).set (L.length - 1) (end_point L)).getD loc zp := by
  rcases loc with _ | k
  · have hmin : min (0 + 1) L.length - 1 = 0 := by omega
    simp only [reloop_line, hmin, List.take_zero, List.append_nil, List.drop_zero]
    simp only [lineEnd, List.getLastD_eq_getLast?, List.getLast?_eq_getElem?,
      List.length_set, List.getD_eq_getElem?_getD]
    rw [List.getElem?_set_self (by simp only [List.length_set]; omega)]
    rw [List.getElem?_set_ne (by omega), List.getElem?_set_self (by omega)]
  · have hmin : min (k + 1 + 1) L.length - 1 = k + 1 := by omega
    simp only [reloop_line, hmin]
    set l2 := (L.set 0 (end_point L)).set (L.length - 1) (end_point L) with hl2def
    have hl2len : l2.length = L.length := by
      rw [hl2def]
      simp only [List.length_set]
    have hsecond : ((l2.drop 1).take (k + 1)).getLast? = l2[k + 1]? := by
      rw [List.getLast?_eq_getElem?]
      have hlen3 : ((l2.drop 1).take (k + 1)).length = k + 1 := by
        simp only [List.length_take, List.length_drop, hl2len]
        omega
      rw [hlen3]
      simp only [Nat.add_sub_cancel]
      rw [List.getElem?_take_of_lt (by omega), List.getElem?_drop]
      congr 1
      omega
    have hx : ∃ x, l2[k + 1]? = some x := by
      have hk : k + 1 < l2.length := by omega
      exact ⟨l2[k + 1], List.getElem?_eq_getElem hk⟩
    rcases hx with ⟨x, hx⟩
    rw [lineEnd, List.getLastD_eq_getLast?, List.getLast?_append, hsecond, hx]
    rw [List.getD_eq_getElem?_getD, hx]
    rfl

/-- The endpoint-averaged line's point at position 0 is the average itself. -/
theorem set2_getD_zero (L : Line) (ep : Point) (hlen : 2 ≤ L.length) :
    ((L.set 0 ep).set (L.length - 1) ep).getD 0 zp = ep := by
  rw [List.getD_eq_getElem?_getD, List.getElem?_set_ne (by omega),
    List.getElem?_set_self (by omega)]
  rfl

/-- Reloop preserves the number of lines. -/
theorem reloop_length (lc : LineCollection) (tol : ℚ) (locs : ℕ → ℕ) :
    (lc.reloop tol locs).lines.length = lc.lines.length := by
  unfold LineCollection.reloop
  simp

/-- The line at position `i` after reloop: reseamed iff closed. -/
theorem reloop_getD (lc : LineCollection) (tol : ℚ) (locs : ℕ → ℕ) (i : ℕ)
    (hi : i < lc.lines.length) :
    (lc.reloop tol locs).lines.getD i [] =
      (if is_closed (lc.lines.getD i []) tol then reloop_line (lc.lines.getD i []) (locs i)
      else lc.lines.getD i []) := by
  unfold LineCollection.reloop
  rw [List.getD_eq_getElem?_getD, List.getElem?_map, List.getElem?_enum,
    List.getElem?_eq_getElem hi]
  simp [List.getD_eq_getElem?_getD, List.getElem?_eq_getElem hi]

/-- C9 (amended): reloop changes only the lines whose first-to-last endpoint
distance is within the tolerance; for each such line with at least two
points and a valid seam draw `locs i < len − 1`, the replacement has exactly
the same number of points and its first and last points are exactly equal —
both being the point at the seam index of the line whose two endpoints were
replaced by their average; when the seam index is 0 that shared point is the
average of the original first and last points (but not in general). -/
theorem c9_reloop_reseam (lc : LineCollection) (tol : ℚ) (locs : ℕ → ℕ) (i : ℕ)
    (hlen : 2 ≤ (lc.lines.getD i []).length)
    (hloc : locs i < (lc.lines.getD i []).length - 1) :
    ((lc.reloop tol locs).lines.length = lc.lines.length) ∧
      (is_closed (lc.lines.getD i []) tol = false →
        (lc.reloop tol locs).lines.getD i [] = lc.lines.getD i []) ∧
      (is_closed (lc.lines.getD i []) tol = true →
        ((lc.reloop tol locs).lines.getD i []).length = (lc.lines.getD i []).length ∧
          lineStart ((lc.reloop tol locs).lines.getD i []) =
            lineEnd ((lc.reloop tol locs).lines.getD i []) ∧
          lineStart ((lc.reloop tol locs).lines.getD i []) =
            (((lc.lines.getD i []).set 0 (end_point (lc.lines.getD i []))).set
              ((lc.lines.getD i []).length - 1)
              (end_point (lc.lines.getD i []))).getD (locs i) zp ∧
          (locs i = 0 →
            lineStart ((lc.reloop tol locs).lines.getD i []) =
              end_point (lc.lines.getD i []))) := by
  have hi : i < lc.lines.length := by
    by_contra hge
    rw [List.getD_eq_getElem?_getD, List.getElem?_eq_none (by omega)] at hlen
    simp at hlen
  refine ⟨reloop_length lc tol locs, ?_, ?_⟩
  · intro hcl
    rw [reloop_getD lc tol locs i hi, if_neg (by rw [hcl]; simp)]
  · intro hcl
    have hrw : (lc.reloop tol locs).lines.getD i [] =
        reloop_line (lc.lines.getD i []) (locs i) := by
      rw [reloop_getD lc tol locs i hi, if_pos hcl]
    rw [hrw]
    refine ⟨reloop_line_length _ _ hlen hloc, ?_,
      reloop_line_head _ _ hlen hloc, ?_⟩
    · rw [reloop_line_head _ _ hlen hloc, reloop_line_last _ _ hlen hloc]
    · intro h0
      rw [reloop_line_head _ _ hlen hloc, h0]
      exact set2_getD_zero _ _ hlen

/-- Witness for C9 at a concrete input: the closed triangle
(0,0)–(4,0)–(0,2) with tolerance 10 and seam draw 1. -/
theorem c9_reloop_reseam_witness :
    (2 ≤ ((⟨[[(0, 0), (4, 0), (0, 2)]]⟩ : LineCollection).lines.getD 0 []).length) ∧
      ((fun _ : ℕ => 1) 0 <
        ((⟨[[(0, 0), (4, 0), (0, 2)]]⟩ : LineCollection).lines.getD 0 []).length - 1) ∧
      (((LineCollection.reloop ⟨[[(0, 0), (4, 0), (0, 2)]]⟩ 10 (fun _ => 1)).lines.length =
          (⟨[[(0, 0), (4, 0), (0, 2)]]⟩ : LineCollection).lines.length) ∧
        (is_closed ((⟨[[(0, 0), (4, 0), (0, 2)]]⟩ : LineCollection).lines.getD 0 []) 10 =
            false →
          (LineCollection.reloop ⟨[[(0, 0), (4, 0), (0, 2)]]⟩ 10 (fun _ => 1)).lines.getD 0
              [] =
            (⟨[[(0, 0), (4, 0), (0, 2)]]⟩ : LineCollection).lines.getD 0 []) ∧
        (is_closed ((⟨[[(0, 0), (4, 0), (0, 2)]]⟩ : LineCollection).lines.getD 0 []) 10 =
            true →
          ((LineCollection.reloop ⟨[[(0, 0), (4, 0), (0, 2)]]⟩ 10
                  (fun _ => 1)).lines.getD 0 []).length =
              ((⟨[[(0, 0), (4, 0), (0, 2)]]⟩ : LineCollection).lines.getD 0 []).length ∧
            lineStart
                ((LineCollection.reloop ⟨[[(0, 0), (4, 0), (0, 2)]]⟩ 10
                    (fun _ => 1)).lines.getD 0 []) =
              lineEnd
                ((LineCollection.reloop ⟨[[(0, 0), (4, 0), (0, 2)]]⟩ 10
                    (fun _ => 1)).lines.getD 0 []) ∧
            lineStart
                ((LineCollection.reloop ⟨[[(0, 0), (4, 0), (0, 2)]]⟩ 10
                    (fun _ => 1)).lines.getD 0 []) =
              ((((⟨[[(0, 0), (4, 0), (0, 2)]]⟩ : LineCollection).lines.getD 0 []).set 0
                    (end_point
                      ((⟨[[(0, 0), (4, 0), (0, 2)]]⟩ : LineCollection).lines.getD 0 []))).set
                  (((⟨[[(0, 0), (4, 0), (0, 2)]]⟩ : LineCollection).lines.getD 0 []).length -
                    1)
                  (end_point
                    ((⟨[[(0, 0), (4, 0), (0, 2)]]⟩ :
                        LineCollection).lines.getD 0 []))).getD ((fun _ : ℕ => 1) 0) zp ∧
            ((fun _ : ℕ => 1) 0 = 0 →
              lineStart
                  ((LineCollection.reloop ⟨[[(0, 0), (4, 0), (0, 2)]]⟩ 10
                      (fun _ => 1)).lines.getD 0 []) =
                end_point ((⟨[[(0, 0), (4, 0), (0, 2)]]⟩ : LineCollection).lines.getD 0 []))))
    :=
  ⟨by decide, by decide,
    c9_reloop_reseam ⟨[[(0, 0), (4, 0), (0, 2)]]⟩ 10 (fun _ => 1) 0 (by decide) (by decide)⟩

/-- C9 counterexample: the claim asserts the shared first/last point of a
reseamed closed line is the average of the original endpoints; with seam
draw 1 on the closed triangle (0,0)–(4,0)–(0,2) (tolerance 10) the reseamed
line is [(4,0),(0,1),(4,0)]: its shared endpoint (4,0) is not the endpoint
average (0,1). -/
theorem c9_seam_not_average_counterexample :
    is_closed [(0, 0), (4, 0), (0, 2)] 10 = true ∧
      ((1 : ℕ) < ([(0, 0), (4, 0), (0, 2)] : Line).length - 1) ∧
      (LineCollection.reloop ⟨[[(0, 0), (4, 0), (0, 2)]]⟩ 10 (fun _ => 1)).lines =
        [[(4, 0), (0, 1), (4, 0)]] ∧
      lineStart [(4, 0), (0, 1), (4, 0)] = lineEnd [(4, 0), (0, 1), (4, 0)] ∧
      lineStart [(4, 0), (0, 1), (4, 0)] ≠ end_point [(0, 0), (4, 0), (0, 2)] := by
  have h1 : lineEnd ([(0, 0), (4, 0), (0, 2)] : Line) = (0, 2) := rfl
  have h2 : lineStart ([(0, 0), (4, 0), (0, 2)] : Line) = (0, 0) := rfl
  have hcl : is_closed [(0, 0), (4, 0), (0, 2)] 10 = true := by
    simp only [is_closed, h1, h2, withinTol, dist2, Bool.and_eq_true, decide_eq_true_eq]
    norm_num
  have hep : end_point ([(0, 0), (4, 0), (0, 2)] : Line) = (0, 1) := by
    have hform : end_point ([(0, 0), (4, 0), (0, 2)] : Line) =
        (((0 : ℚ) + 0) / 2, ((0 : ℚ) + 2) / 2) := rfl
    rw [hform]
    norm_num
  have hrl : reloop_line [(0, 0), (4, 0), (0, 2)] 1 = [(4, 0), (0, 1), (4, 0)] := by
    simp only [reloop_line, hep]
    rfl
  have hrc : (LineCollection.reloop ⟨[[(0, 0), (4, 0), (0, 2)]]⟩ 10 (fun _ => 1)).lines =
      [[(4, 0), (0, 1), (4, 0)]] := by
    have hform : (LineCollection.reloop ⟨[[(0, 0), (4, 0), (0, 2)]]⟩ 10 (fun _ => 1)).lines =
        [if is_closed [(0, 0), (4, 0), (0, 2)] 10 then
            reloop_line [(0, 0), (4, 0), (0, 2)] 1
          else [(0, 0), (4, 0), (0, 2)]] := rfl
    rw [hform, hcl, hrl]
    rfl
  refine ⟨hcl, by decide, hrc, rfl, ?_⟩
  rw [hep]
  decide

/-- C10: on an empty line collection, `width()` and `height()` both return 0
rather than failing, while `bounds()` on the same empty collection yields no
result. -/
theorem c10_empty_width_height_zero :
    LineCollection.width ⟨[]⟩ = 0 ∧ LineCollection.height ⟨[]⟩ = 0 ∧
      LineCollection.bounds ⟨[]⟩ = none :=
  ⟨rfl, rfl, rfl⟩

end Vpype
